import Mathlib

/-!
Verification development for the bridge remote-execution tool.

Strings are modelled as `List Char`. The ambient process environment,
the advisory file lock, the SSH reachability probe and the remote
command executor are external effects; they enter the model as explicit
oracle parameters (an environment lookup function, a per-attempt lock
availability trace, a per-poll probe trace, and the observed exit
statuses of the spawned processes). Everything else is translated
directly from the Rust sources under src/.
-/

namespace Bridge

/-- Model of Rust `str::contains` for a needle `pat` inside `s`
(`true` iff some contiguous run of `s` equals `pat`). -/
def containsSub (pat : List Char) : List Char → Bool
  | [] => pat.isEmpty
  | c :: rest => pat.isPrefixOf (c :: rest) || containsSub pat rest

/-- Model of Rust `str::replacen(pat, repl, 1)`: replace the leftmost
occurrence of `pat` (our call sites always use a non-empty `pat`). -/
def replaceFirst (pat repl : List Char) : List Char → List Char
  | [] => []
  | c :: rest =>
    if pat.isPrefixOf (c :: rest) then repl ++ rest.drop (pat.length - 1)
    else c :: replaceFirst pat repl rest

/-- Fuel-indexed worker for `replaceAll`; structural recursion on the
fuel keeps the function kernel-reducible. The fuel is always
instantiated with the length of the scanned string, which bounds the
number of steps. -/
def replaceAllFuel (pat repl : List Char) : Nat → List Char → List Char
  | _, [] => []
  | 0, s => s
  | fuel + 1, c :: rest =>
    if pat.isPrefixOf (c :: rest) then
      repl ++ replaceAllFuel pat repl fuel (rest.drop (pat.length - 1))
    else c :: replaceAllFuel pat repl fuel rest

/-- Model of Rust `str::replace`: replace every (non-overlapping,
leftmost-first) occurrence of `pat` (call sites use non-empty `pat`). -/
def replaceAll (pat repl s : List Char) : List Char :=
  replaceAllFuel pat repl s.length s

theorem replaceAllFuel_irrel (pat repl : List Char) :
    ∀ f1 f2 s, s.length ≤ f1 → s.length ≤ f2 →
      replaceAllFuel pat repl f1 s = replaceAllFuel pat repl f2 s := by
  intro f1
  induction f1 with
  | zero =>
    intro f2 s h1 _
    have hs : s = [] := List.eq_nil_of_length_eq_zero (Nat.le_zero.mp h1)
    subst hs
    simp [replaceAllFuel]
  | succ g ih =>
    intro f2 s h1 h2
    cases s with
    | nil => simp [replaceAllFuel]
    | cons c rest =>
      cases f2 with
      | zero => simp at h2
      | succ g2 =>
        simp only [replaceAllFuel]
        have hr1 : rest.length ≤ g := by simpa using h1
        have hr2 : rest.length ≤ g2 := by simpa using h2
        by_cases hp : pat.isPrefixOf (c :: rest) = true
        · rw [if_pos hp, if_pos hp]
          have hd : (rest.drop (pat.length - 1)).length ≤ rest.length := by
            simp [List.length_drop]
          rw [ih _ _ (Nat.le_trans hd hr1) (Nat.le_trans hd hr2)]
        · rw [if_neg hp, if_neg hp, ih _ _ hr1 hr2]

theorem replaceAll_nil (pat repl : List Char) : replaceAll pat repl [] = [] := rfl

theorem replaceAll_cons_pos (pat repl : List Char) (c : Char) (rest : List Char)
    (h : pat.isPrefixOf (c :: rest) = true) :
    replaceAll pat repl (c :: rest)
      = repl ++ replaceAll pat repl (rest.drop (pat.length - 1)) := by
  show replaceAllFuel pat repl (rest.length + 1) (c :: rest) = _
  simp only [replaceAllFuel, h, if_true]
  rw [replaceAllFuel_irrel pat repl rest.length (rest.drop (pat.length - 1)).length
    (rest.drop (pat.length - 1)) (by simp [List.length_drop]) (Nat.le_refl _)]
  rfl

theorem replaceAll_cons_neg (pat repl : List Char) (c : Char) (rest : List Char)
    (h : pat.isPrefixOf (c :: rest) = false) :
    replaceAll pat repl (c :: rest) = c :: replaceAll pat repl rest := by
  show replaceAllFuel pat repl (rest.length + 1) (c :: rest) = _
  simp only [replaceAllFuel, h, if_false]
  rfl

theorem containsSub_nil_pat (s : List Char) : containsSub [] s = true := by
  cases s <;> simp [containsSub, List.isPrefixOf]

theorem isPrefixOf_append_self (l t : List Char) :
    List.isPrefixOf l (l ++ t) = true := by
  induction l with
  | nil => simp [List.isPrefixOf]
  | cons c cs ih => simp [List.isPrefixOf, ih]

theorem containsSub_cons_of_tail (pat : List Char) (c : Char) (rest : List Char)
    (h : containsSub pat rest = true) : containsSub pat (c :: rest) = true := by
  simp [containsSub, h]

theorem containsSub_here (pat b : List Char) : containsSub pat (pat ++ b) = true := by
  cases pat with
  | nil => exact containsSub_nil_pat _
  | cons p pt => simp [containsSub, isPrefixOf_append_self]

theorem containsSub_append_left (pat a b : List Char)
    (h : containsSub pat b = true) : containsSub pat (a ++ b) = true := by
  induction a with
  | nil => simpa using h
  | cons c a' ih => exact containsSub_cons_of_tail pat c (a' ++ b) ih

theorem replaceAll_of_not_contains (pat repl s : List Char)
    (h : containsSub pat s = false) : replaceAll pat repl s = s := by
  induction s with
  | nil => rfl
  | cons c rest ih =>
    have h2 : (pat.isPrefixOf (c :: rest) || containsSub pat rest) = false := h
    rw [Bool.or_eq_false_iff] at h2
    rw [replaceAll_cons_neg pat repl c rest h2.1, ih h2.2]

theorem containsSub_eq_false_of_not_mem (p : Char) (pt s : List Char)
    (h : p ∉ s) : containsSub (p :: pt) s = false := by
  induction s with
  | nil => rfl
  | cons c rest ih =>
    have hpc : p ≠ c := fun he => h (he ▸ List.mem_cons_self c rest)
    have hrest : p ∉ rest := fun hm => h (List.mem_cons_of_mem c hm)
    have hbeq : (p == c) = false := by
      simp [hpc]
    simp [containsSub, List.isPrefixOf, hbeq, ih hrest]

/-- Process-environment lookup, the shallow embedding of `std::env::var`
(src/env_subst.rs line 51): the ambient environment is passed in as an
explicit function from variable names to optional values. -/
def EnvFn : Type := List Char → Option (List Char)

/-- Lookup in the `.env`-file variable mapping, the embedding of
`HashMap::get` (src/env_subst.rs line 53); the map's keys are unique. -/
def lookupAssoc (m : List (List Char × List Char)) (k : List Char) :
    Option (List Char) :=
  match m with
  | [] => none
  | (k2, v) :: rest => if k2 = k then some v else lookupAssoc rest k

/-- First character of a variable name, per the regex character class
`[A-Za-z_]` in src/env_subst.rs line 28. -/
def isNameStart (c : Char) : Bool := c.isAlpha || c = '_'

/-- Subsequent characters of a variable name, per the regex character
class `[A-Za-z0-9_]` in src/env_subst.rs line 28. -/
def isNameChar (c : Char) : Bool := c.isAlphanum || c = '_'

/-- One placeholder captured by the regex
`\$\x7b([A-Za-z_][A-Za-z0-9_]*)(?::-([^\x7d]*))?\x7d`
(src/env_subst.rs line 28): the variable name and, when the `:-` form
is used, the inline default. -/
structure Placeholder where
  name : List Char
  defv : Option (List Char)
deriving DecidableEq, Repr

/-- The full matched text of a placeholder (capture group 0), used by
the substitution loop as the needle of `replacen`. -/
def Placeholder.fullMatch (p : Placeholder) : List Char :=
  '$' :: '\x7b' :: (p.name ++ (match p.defv with
    | none => ['\x7d']
    | some d => ':' :: '-' :: (d ++ ['\x7d'])))

/-- Parse the body of a placeholder, the part after an opening `$\x7b`:
a name in `[A-Za-z_][A-Za-z0-9_]*`, an optional `:-default` with the
default matching `[^\x7d]*`, then the closing brace. Both starred
classes exclude their follow characters, so the regex's greedy matching
is the deterministic maximal munch implemented here. Returns the
placeholder and the unconsumed tail, or `none` when the regex does not
match at this position. -/
def parsePlaceholderBody (l : List Char) : Option (Placeholder × List Char) :=
  match l with
  | [] => none
  | c :: rest =>
    if isNameStart c then
      match rest.dropWhile isNameChar with
      | [] => none
      | d :: rest2 =>
        if d = '\x7d' then some (⟨c :: rest.takeWhile isNameChar, none⟩, rest2)
        else if d = ':' then
          match rest2 with
          | [] => none
          | e :: rest3 =>
            if e = '-' then
              match rest3.dropWhile (fun ch => ch ≠ '\x7d') with
              | [] => none
              | f :: rest4 =>
                if f = '\x7d' then
                  some (⟨c :: rest.takeWhile isNameChar,
                         some (rest3.takeWhile (fun ch => ch ≠ '\x7d'))⟩, rest4)
                else none
            else none
        else none
    else none

theorem parsePlaceholderBody_length (l : List Char) (p : Placeholder)
    (r : List Char) (h : parsePlaceholderBody l = some (p, r)) :
    r.length < l.length := by
  match l with
  | [] => simp [parsePlaceholderBody] at h
  | c :: rest =>
    simp only [parsePlaceholderBody] at h
    by_cases hs : isNameStart c = true
    case neg => rw [if_neg hs] at h; simp at h
    rw [if_pos hs] at h
    have hd : (rest.dropWhile isNameChar).length ≤ rest.length :=
      (List.dropWhile_suffix isNameChar).sublist.length_le
    match hdw : rest.dropWhile isNameChar with
    | [] => rw [hdw] at h; simp at h
    | d :: rest2 =>
      rw [hdw] at h
      rw [hdw] at hd
      dsimp only at h
      by_cases hd7 : d = '\x7d'
      · rw [if_pos hd7] at h
        simp only [Option.some.injEq, Prod.mk.injEq] at h
        have hr : rest2 = r := h.2
        subst hr
        simp only [List.length_cons] at hd ⊢
        omega
      · rw [if_neg hd7] at h
        by_cases hdc : d = ':'
        case neg => rw [if_neg hdc] at h; simp at h
        rw [if_pos hdc] at h
        match rest2 with
        | [] => simp at h
        | e :: rest3 =>
          dsimp only at h
          by_cases he : e = '-'
          case neg => rw [if_neg he] at h; simp at h
          rw [if_pos he] at h
          have hd4 : (rest3.dropWhile (fun ch => ch ≠ '\x7d')).length ≤ rest3.length :=
            (List.dropWhile_suffix _).sublist.length_le
          match hdw4 : rest3.dropWhile (fun ch => ch ≠ '\x7d') with
          | [] => rw [hdw4] at h; simp at h
          | f :: rest4 =>
            rw [hdw4] at h
            rw [hdw4] at hd4
            dsimp only at h
            by_cases hf : f = '\x7d'
            case neg => rw [if_neg hf] at h; simp at h
            rw [if_pos hf] at h
            simp only [Option.some.injEq, Prod.mk.injEq] at h
            have hr : rest4 = r := h.2
            subst hr
            simp only [List.length_cons] at hd hd4 ⊢
            omega

/-- Fuel-indexed worker for `findPlaceholders`. A match attempt starts
at each `$\x7b`; on a failed attempt the scan resumes one character
later (regex leftmost semantics), on a successful one it resumes after
the matched text (non-overlapping `captures_iter`). The fuel is
instantiated with the string length, which bounds the step count. -/
def findPlaceholdersFuel : Nat → List Char → List Placeholder
  | _, [] => []
  | 0, _ => []
  | fuel + 1, c :: rest =>
    if c = '$' then
      match rest with
      | [] => []
      | d :: rest2 =>
        if d = '\x7b' then
          match parsePlaceholderBody rest2 with
          | some (p, rest3) => p :: findPlaceholdersFuel fuel rest3
          | none => findPlaceholdersFuel fuel rest
        else findPlaceholdersFuel fuel rest
    else findPlaceholdersFuel fuel rest

/-- All placeholders captured by `re.captures_iter` over the masked
string, in order, as collected in step 2 of `substitute_env_vars`
(src/env_subst.rs lines 37-46). -/
def findPlaceholders (s : List Char) : List Placeholder :=
  findPlaceholdersFuel s.length s

theorem findPlaceholdersFuel_no_dollar (fuel : Nat) (s : List Char)
    (h : '$' ∉ s) : findPlaceholdersFuel fuel s = [] := by
  induction fuel generalizing s with
  | zero => cases s <;> rfl
  | succ g ih =>
    cases s with
    | nil => rfl
    | cons c rest =>
      have hc : ¬c = '$' := fun he => h (he ▸ List.mem_cons_self c rest)
      have hrest : '$' ∉ rest := fun hm => h (List.mem_cons_of_mem c hm)
      simp only [findPlaceholdersFuel]
      rw [if_neg hc]
      exact ih rest hrest

theorem findPlaceholders_no_dollar (s : List Char) (h : '$' ∉ s) :
    findPlaceholders s = [] :=
  findPlaceholdersFuel_no_dollar s.length s h

/-- Step 3 of `substitute_env_vars` (src/env_subst.rs lines 48-66): walk
the collected captures in order; resolve each via process environment,
then the `.env`-file mapping, then the inline default; a missing
required variable under `strict` is recorded and its placeholder left in
place (`continue`), otherwise the leftmost occurrence of the full match
is replaced (`replacen(.., 1)`; non-strict missing uses the empty
string). Returns the rewritten string and the missing names in
encounter order. -/
def applySubsts (env : EnvFn) (envVars : List (List Char × List Char))
    (strict : Bool) :
    List Placeholder → List Char → List Char × List (List Char)
  | [], result => (result, [])
  | p :: ps, result =>
    match env p.name with
    | some v => applySubsts env envVars strict ps
        (replaceFirst p.fullMatch v result)
    | none =>
      match lookupAssoc envVars p.name with
      | some v => applySubsts env envVars strict ps
          (replaceFirst p.fullMatch v result)
      | none =>
        match p.defv with
        | some d => applySubsts env envVars strict ps
            (replaceFirst p.fullMatch d result)
        | none =>
          if strict then
            let res := applySubsts env envVars strict ps result
            (res.1, p.name :: res.2)
          else applySubsts env envVars strict ps
            (replaceFirst p.fullMatch [] result)

/-- The escape marker `\x00ESC\x00` from src/env_subst.rs line 34. -/
def escMarker : List Char := ['\x00', 'E', 'S', 'C', '\x00']

/-- The escaped-sequence opener `$$\x7b` (src/env_subst.rs line 35). -/
def escapedOpen : List Char := ['$', '$', '\x7b']

/-- The literal `$\x7b` restored for escaped sequences
(src/env_subst.rs line 69). -/
def dollarOpen : List Char := ['$', '\x7b']

/-- Separator of `missing_vars.join(", ")` (src/env_subst.rs line 77). -/
def joinCommaSp : List (List Char) → List Char
  | [] => []
  | [a] => a
  | a :: b :: rest => a ++ (',' :: ' ' :: joinCommaSp (b :: rest))

/-- Leading text of the strict-missing error (src/env_subst.rs line 74). -/
def missingHeader : List Char :=
  "Missing required environment variables: ".toList

/-- Trailing text of the strict-missing error (src/env_subst.rs
lines 74-76; the Rust literal's line continuation folds the message onto
one line). -/
def missingFooter : List Char :=
  (". Use $\x7bVAR:-default\x7d syntax for optional variables, " ++
   "or set strict_env = false in bridge.toml").toList

/-- The aggregated error message of the `bail!` in src/env_subst.rs
lines 72-79. -/
def missingErrMsg (missing : List (List Char)) : List Char :=
  missingHeader ++ joinCommaSp missing ++ missingFooter

/-- Shallow embedding of `substitute_env_vars` (src/env_subst.rs
lines 23-82). Step 1 masks every `$$\x7b` with the collision-safe
marker; step 2 collects the regex captures of the masked string; step 3
applies the substitutions; step 4 restores the marker to `$\x7b` (the
error path discards the restored string, as in the source); step 5
fails with the aggregated message when any required variable was
missing. -/
def substitute_env_vars (env : EnvFn) (input : List Char) (strict : Bool)
    (envVars : List (List Char × List Char)) :
    Except (List Char) (List Char) :=
  let masked := replaceAll escapedOpen escMarker input
  let res := applySubsts env envVars strict (findPlaceholders masked) masked
  let restored := replaceAll escMarker dollarOpen res.1
  if res.2 = [] then Except.ok restored
  else Except.error (missingErrMsg res.2)

/-- The names of the required variables that resolve to missing during a
strict substitution of `input`, in encounter order (the `missing_vars`
vector of src/env_subst.rs line 31). -/
def missingVarsOf (env : EnvFn) (envVars : List (List Char × List Char))
    (input : List Char) : List (List Char) :=
  (applySubsts env envVars true
    (findPlaceholders (replaceAll escapedOpen escMarker input))
    (replaceAll escapedOpen escMarker input)).2

/-- The shell kinds of src/config.rs lines 135-140 (`Bash` is the POSIX
shell kind). -/
inductive Shell where
  | bash
  | powershell
  | cmd
deriving DecidableEq, Repr

/-- Distinguishable failures of the composition pipeline, mirroring the
anyhow error provenance in src/ssh.rs: the context added to a command
substitution failure (line 30), the `bail!` for a wrapper template
without the placeholder token (lines 86-91), and the context added to a
wrapper substitution failure (line 95); each carries the underlying
message (for the wrapper `bail!`, the offending template). -/
inductive ComposeError where
  | substCommand (msg : List Char)
  | wrapperMissingToken (template : List Char)
  | substWrapper (msg : List Char)
deriving DecidableEq, Repr

/-- The wrapper placeholder token `\x7b\x7d` of src/ssh.rs line 86. -/
def braceToken : List Char := ['\x7b', '\x7d']

/-- Shallow embedding of `apply_wrapper` (src/ssh.rs lines 75-99):
without a wrapper the command passes through; otherwise the template is
validated to contain the token before any wrapper substitution, then
substituted, then every token occurrence is replaced by the command. -/
def apply_wrapper (env : EnvFn) (envVars : List (List Char × List Char))
    (strict : Bool) (command : List Char) (wrapper : Option (List Char)) :
    Except ComposeError (List Char) :=
  match wrapper with
  | none => Except.ok command
  | some wt =>
    if containsSub braceToken wt = false then
      Except.error (ComposeError.wrapperMissingToken wt)
    else
      match substitute_env_vars env wt strict envVars with
      | Except.error e => Except.error (ComposeError.substWrapper e)
      | Except.ok w => Except.ok (replaceAll braceToken command w)

/-- Step 4 of `run_remote_command` (src/ssh.rs lines 36-48): the
shell-specific change-directory prefix around the wrapped command. -/
def shellCd (shell : Shell) (remote_path cmd : List Char) : List Char :=
  match shell with
  | Shell.bash => "cd \x22".toList ++ remote_path ++ "\x22 && ".toList ++ cmd
  | Shell.powershell =>
      "powershell -Command \x22cd \x27".toList ++ remote_path ++
        "\x27; ".toList ++ replaceAll ['\x22'] ['\\', '\x22'] cmd ++ ['\x22']
  | Shell.cmd =>
      "cd /d \x22".toList ++
        remote_path.map (fun c => if c = '/' then '\\' else c) ++
        "\x22 && ".toList ++ cmd

/-- Shallow embedding of the composition pipeline of
`run_remote_command` (src/ssh.rs lines 17-48, steps 1-4): substitute
the user command, apply the wrapper, prepend the shell prefix. The
result is the exact string handed to the spawned transport client in
step 5. -/
def run_remote_command_compose (env : EnvFn)
    (envVars : List (List Char × List Char)) (strict : Bool)
    (remote_path command : List Char) (shell : Shell)
    (wrapper : Option (List Char)) : Except ComposeError (List Char) :=
  match substitute_env_vars env command strict envVars with
  | Except.error e => Except.error (ComposeError.substCommand e)
  | Except.ok cmd =>
    match apply_wrapper env envVars strict cmd wrapper with
    | Except.error e => Except.error e
    | Except.ok wrapped => Except.ok (shellCd shell remote_path wrapped)

/-- Guard holding the exclusive advisory file lock
(src/lock.rs lines 8-11); in the model it records the lock file path. -/
structure LockGuard where
  path : List Char
deriving DecidableEq, Repr

/-- The deterministic lock file path of src/lock.rs line 23. -/
def lockPath (hostname lock_name : List Char) : List Char :=
  "/tmp/bridge-".toList ++ hostname ++ ['-'] ++ lock_name ++ ".lock".toList

/-- The timeout error of the `bail!` in src/lock.rs lines 50-55
(`timeout` in whole seconds, as printed by `Duration::as_secs`). -/
def lockTimeoutMsg (lock_name hostname : List Char) (timeout : Nat) :
    List Char :=
  "Timed out waiting for lock \x27".toList ++
    (lock_name ++ ("\x27 on ".toList ++
      (hostname ++ (" after ".toList ++ ((Nat.repr timeout).toList ++ ['s'])))))

/-- The polling loop of `acquire_lock` (src/lock.rs lines 45-64) under
an idealized clock: `tryLock k` is the outcome of the k-th
`try_lock_exclusive` attempt (attempt 0 is the initial non-blocking
try), the poll interval is exactly 2 seconds and attempts are
instantaneous, so at the top of loop iteration k the elapsed time is
2*k seconds (the real elapsed time is at least that). -/
def acquireLoop (tryLock : Nat → Bool) (timeout : Nat)
    (hostname lock_name : List Char) (k : Nat) :
    Except (List Char) LockGuard :=
  if timeout ≤ 2 * k then
    Except.error (lockTimeoutMsg lock_name hostname timeout)
  else if tryLock (k + 1) then Except.ok ⟨lockPath hostname lock_name⟩
  else acquireLoop tryLock timeout hostname lock_name (k + 1)
termination_by timeout - 2 * k
decreasing_by
  rename_i h _
  omega

/-- Shallow embedding of `acquire_lock` (src/lock.rs lines 17-65): an
initial non-blocking exclusive claim, then the 2-second polling loop
bounded by the timeout. The lock file creation and the OS advisory-lock
side effects are abstracted into the `tryLock` availability trace. -/
def acquire_lock (tryLock : Nat → Bool) (hostname lock_name : List Char)
    (timeout : Nat) : Except (List Char) LockGuard :=
  if tryLock 0 then Except.ok ⟨lockPath hostname lock_name⟩
  else acquireLoop tryLock timeout hostname lock_name 0

/-- The reconnection polling loop of `run` (src/commands/run.rs
lines 102-128) under an idealized clock: `probe k` is the outcome of
the k-th `check_connection` reachability probe, the poll interval is
exactly 5 seconds and probes are instantaneous, so at the top of loop
iteration k the elapsed time is 5*k seconds. On timeout the loop
returns 255; on the first successful probe it returns the recovery
command's exit status `recoveryExit` (the observed result of re-running
`run_remote_command` with the reconnect command). -/
def reconnectLoop (probe : Nat → Bool) (timeout : Nat)
    (recoveryExit : Int) (k : Nat) : Int :=
  if timeout ≤ 5 * k then 255
  else if probe k then recoveryExit
  else reconnectLoop probe timeout recoveryExit (k + 1)
termination_by timeout - 5 * k
decreasing_by
  rename_i h _
  omega

/-- The exit-status decision of `run` after the primary remote command
finished (src/commands/run.rs lines 94-132): only a primary exit status
of 255 with a configured reconnect command enters the reconnection
loop; every other outcome is returned unchanged. `recoveryExit` is the
exit status the recovery command would report if run. -/
def runExitDecision (primaryExit : Int)
    (reconnectCommand : Option (List Char)) (probe : Nat → Bool)
    (timeout : Nat) (recoveryExit : Int) : Int :=
  if primaryExit = 255 then
    match reconnectCommand with
    | some _ => reconnectLoop probe timeout recoveryExit 0
    | none => primaryExit
  else primaryExit

theorem reconnectLoop_timeout (probe : Nat → Bool) (timeout : Nat)
    (rEx : Int) (k : Nat) (h : timeout ≤ 5 * k) :
    reconnectLoop probe timeout rEx k = 255 := by
  unfold reconnectLoop
  rw [if_pos h]

theorem reconnectLoop_probe_true (probe : Nat → Bool) (timeout : Nat)
    (rEx : Int) (k : Nat) (h1 : ¬timeout ≤ 5 * k) (h2 : probe k = true) :
    reconnectLoop probe timeout rEx k = rEx := by
  unfold reconnectLoop
  rw [if_neg h1, if_pos h2]

theorem reconnectLoop_step (probe : Nat → Bool) (timeout : Nat)
    (rEx : Int) (k : Nat) (h1 : ¬timeout ≤ 5 * k) (h2 : probe k = false) :
    reconnectLoop probe timeout rEx k
      = reconnectLoop probe timeout rEx (k + 1) := by
  conv_lhs => unfold reconnectLoop
  rw [if_neg h1, if_neg (by simp [h2])]

theorem reconnectLoop_no_success (probe : Nat → Bool) (timeout : Nat)
    (rEx : Int) (h : ∀ j, 5 * j < timeout → probe j = false) :
    ∀ n k, timeout - 5 * k ≤ n → reconnectLoop probe timeout rEx k = 255 := by
  intro n
  induction n with
  | zero => intro k hk; exact reconnectLoop_timeout _ _ _ _ (by omega)
  | succ n ih =>
    intro k hk
    by_cases ht : timeout ≤ 5 * k
    · exact reconnectLoop_timeout _ _ _ _ ht
    · rw [reconnectLoop_step _ _ _ _ ht (h k (by omega))]
      exact ih (k + 1) (by omega)

theorem reconnectLoop_first_success (probe : Nat → Bool) (timeout : Nat)
    (rEx : Int) :
    ∀ m k, probe (k + m) = true → 5 * (k + m) < timeout →
      (∀ j, k ≤ j → j < k + m → probe j = false) →
      reconnectLoop probe timeout rEx k = rEx := by
  intro m
  induction m with
  | zero =>
    intro k h1 h2 _
    exact reconnectLoop_probe_true _ _ _ _ (by omega) (by simpa using h1)
  | succ m ih =>
    intro k h1 h2 h3
    have hpk : probe k = false := h3 k (Nat.le_refl k) (by omega)
    rw [reconnectLoop_step _ _ _ _ (by omega) hpk]
    have hadd : k + 1 + m = k + (m + 1) := by omega
    exact ih (k + 1) (hadd ▸ h1) (hadd ▸ h2)
      (fun j hj1 hj2 => h3 j (by omega) (by omega))

theorem reconnectLoop_cases (probe : Nat → Bool) (timeout : Nat)
    (rEx : Int) :
    ∀ n k, timeout - 5 * k ≤ n →
      reconnectLoop probe timeout rEx k = 255
        ∨ reconnectLoop probe timeout rEx k = rEx := by
  intro n
  induction n with
  | zero => intro k hk; exact Or.inl (reconnectLoop_timeout _ _ _ _ (by omega))
  | succ n ih =>
    intro k hk
    by_cases ht : timeout ≤ 5 * k
    · exact Or.inl (reconnectLoop_timeout _ _ _ _ ht)
    · cases hp : probe k with
      | true => exact Or.inr (reconnectLoop_probe_true _ _ _ _ ht hp)
      | false =>
        rw [reconnectLoop_step _ _ _ _ ht hp]
        exact ih (k + 1) (by omega)

theorem runExitDecision_255_some (rcCmd : List Char) (probe : Nat → Bool)
    (timeout : Nat) (rEx : Int) :
    runExitDecision 255 (some rcCmd) probe timeout rEx
      = reconnectLoop probe timeout rEx 0 := by
  simp [runExitDecision]

/-- Claim C1: for a run whose primary remote command exits with the
connection-failure sentinel 255 and with a recovery command configured,
(i) if no reachability probe within the recovery timeout succeeds, the
final status is 255 (for every possible recovery exit status, so the
recovery command is never consulted); (ii) if the first successful
probe happens before the timeout, the final status is the recovery
command's exit status; (iii) the result is always either 255 or the
recovery command's status — never an internal sentinel distinct from
real process codes. -/
theorem run_reconnect_exit_status (probe : Nat → Bool) (timeout : Nat)
    (recoveryExit : Int) (rcCmd : List Char) :
    ((∀ j, 5 * j < timeout → probe j = false) →
      runExitDecision 255 (some rcCmd) probe timeout recoveryExit = 255)
    ∧ (∀ k, probe k = true → 5 * k < timeout →
        (∀ j, j < k → probe j = false) →
        runExitDecision 255 (some rcCmd) probe timeout recoveryExit
          = recoveryExit)
    ∧ (runExitDecision 255 (some rcCmd) probe timeout recoveryExit = 255
       ∨ runExitDecision 255 (some rcCmd) probe timeout recoveryExit
          = recoveryExit) := by
  refine ⟨?_, ?_, ?_⟩
  · intro h
    rw [runExitDecision_255_some]
    exact reconnectLoop_no_success probe timeout recoveryExit h timeout 0
      (by omega)
  · intro k h1 h2 h3
    rw [runExitDecision_255_some]
    exact reconnectLoop_first_success probe timeout recoveryExit k 0
      (by simpa using h1) (by simpa using h2)
      (fun j _ hj => h3 j (by omega))
  · rw [runExitDecision_255_some]
    exact reconnectLoop_cases probe timeout recoveryExit timeout 0 (by omega)

theorem run_reconnect_exit_status_witness :
    runExitDecision 255 (some ['r']) (fun _ => false) 7 3 = 255 :=
  (run_reconnect_exit_status (fun _ => false) 7 3 ['r']).1 (fun _ _ => rfl)

/-- Claim C2: the recovery path is entered only on primary exit status
255 with a recovery command configured; any other exit status is
returned unchanged (independently of the probe trace and of any
recovery exit status, so nothing is polled or executed), and 255
without a configured recovery command is likewise returned unchanged. -/
theorem run_no_recovery_passthrough (e : Int) (rc : Option (List Char))
    (probe : Nat → Bool) (timeout : Nat) (rEx : Int) :
    (e ≠ 255 → runExitDecision e rc probe timeout rEx = e)
    ∧ runExitDecision e none probe timeout rEx = e := by
  constructor
  · intro h
    simp [runExitDecision, h]
  · by_cases he : e = 255 <;> simp [runExitDecision, he]

theorem run_no_recovery_passthrough_witness :
    runExitDecision 7 (some ['r']) (fun _ => true) 90 3 = 7 :=
  (run_no_recovery_passthrough 7 (some ['r']) (fun _ => true) 90 3).1
    (by decide)

theorem acquireLoop_timeout (tryLock : Nat → Bool) (timeout : Nat)
    (hostname lock_name : List Char) (k : Nat) (h : timeout ≤ 2 * k) :
    acquireLoop tryLock timeout hostname lock_name k
      = Except.error (lockTimeoutMsg lock_name hostname timeout) := by
  unfold acquireLoop
  rw [if_pos h]

theorem acquireLoop_step (tryLock : Nat → Bool) (timeout : Nat)
    (hostname lock_name : List Char) (k : Nat) (h1 : ¬timeout ≤ 2 * k)
    (h2 : tryLock (k + 1) = false) :
    acquireLoop tryLock timeout hostname lock_name k
      = acquireLoop tryLock timeout hostname lock_name (k + 1) := by
  conv_lhs => unfold acquireLoop
  rw [if_neg h1, if_neg (by simp [h2])]

theorem acquireLoop_no_success (tryLock : Nat → Bool) (timeout : Nat)
    (hostname lock_name : List Char)
    (h : ∀ k, 2 * k < timeout → tryLock (k + 1) = false) :
    ∀ n k, timeout - 2 * k ≤ n →
      acquireLoop tryLock timeout hostname lock_name k
        = Except.error (lockTimeoutMsg lock_name hostname timeout) := by
  intro n
  induction n with
  | zero => intro k hk; exact acquireLoop_timeout _ _ _ _ _ (by omega)
  | succ n ih =>
    intro k hk
    by_cases ht : timeout ≤ 2 * k
    · exact acquireLoop_timeout _ _ _ _ _ ht
    · rw [acquireLoop_step _ _ _ _ _ ht (h k (by omega))]
      exact ih (k + 1) (by omega)

/-- Claim C5: lock acquisition first attempts a non-blocking exclusive
claim (success returns the handle at once); with the claim unavailable
it polls at the fixed 2-second interval, and once the elapsed wait
reaches the timeout it fails — for an availability trace that never
grants the lock the result is the timeout error, after the timeout
point the loop can only produce that error, and the error message
contains both the lock name and the hostname. -/
theorem acquire_lock_timeout_behavior (tryLock : Nat → Bool)
    (hostname lock_name : List Char) (timeout : Nat) :
    (tryLock 0 = true →
      acquire_lock tryLock hostname lock_name timeout
        = Except.ok ⟨lockPath hostname lock_name⟩)
    ∧ ((tryLock 0 = false ∧ ∀ k, 2 * k < timeout → tryLock (k + 1) = false) →
      acquire_lock tryLock hostname lock_name timeout
        = Except.error (lockTimeoutMsg lock_name hostname timeout))
    ∧ (∀ k, timeout ≤ 2 * k →
      acquireLoop tryLock timeout hostname lock_name k
        = Except.error (lockTimeoutMsg lock_name hostname timeout))
    ∧ containsSub lock_name (lockTimeoutMsg lock_name hostname timeout) = true
    ∧ containsSub hostname (lockTimeoutMsg lock_name hostname timeout)
        = true := by
  refine ⟨?_, ?_, ?_, ?_, ?_⟩
  · intro h
    simp [acquire_lock, h]
  · rintro ⟨h0, hfail⟩
    rw [acquire_lock, if_neg (by simp [h0])]
    exact acquireLoop_no_success tryLock timeout hostname lock_name hfail
      timeout 0 (by omega)
  · intro k hk
    exact acquireLoop_timeout _ _ _ _ _ hk
  · exact containsSub_append_left _ _ _ (containsSub_here _ _)
  · apply containsSub_append_left
    apply containsSub_append_left
    apply containsSub_append_left
    exact containsSub_here _ _

theorem acquire_lock_timeout_behavior_witness :
    acquire_lock (fun _ => false) ['h'] ['l'] 5
      = Except.error (lockTimeoutMsg ['l'] ['h'] 5) :=
  (acquire_lock_timeout_behavior (fun _ => false) ['h'] ['l'] 5).2.1
    ⟨rfl, fun _ _ => rfl⟩

theorem mem_joinCommaSp (v : List Char) (l : List (List Char)) (h : v ∈ l) :
    ∃ x y, joinCommaSp l = x ++ (v ++ y) := by
  induction l with
  | nil => simp at h
  | cons a rest ih =>
    rcases List.mem_cons.mp h with h1 | h2
    · subst h1
      cases rest with
      | nil => exact ⟨[], [], by simp [joinCommaSp]⟩
      | cons b rs =>
        exact ⟨[], ',' :: ' ' :: joinCommaSp (b :: rs), by simp [joinCommaSp]⟩
    · obtain ⟨x, y, hxy⟩ := ih h2
      cases rest with
      | nil => simp at h2
      | cons b rs =>
        refine ⟨a ++ (',' :: ' ' :: x), y, ?_⟩
        simp [joinCommaSp, hxy, List.append_assoc]

/-- Claim C3: under strict substitution, when more than one required
placeholder resolves to missing, the call fails with the single
aggregated error message, and that message contains every missing
variable name (not only the first). -/
theorem substitute_strict_missing_aggregation (env : EnvFn)
    (envVars : List (List Char × List Char)) (input : List Char)
    (h : 2 ≤ (missingVarsOf env envVars input).length) :
    substitute_env_vars env input true envVars
      = Except.error (missingErrMsg (missingVarsOf env envVars input))
    ∧ ∀ v ∈ missingVarsOf env envVars input,
        containsSub v (missingErrMsg (missingVarsOf env envVars input))
          = true := by
  constructor
  · have hne : ¬(applySubsts env envVars true
        (findPlaceholders (replaceAll escapedOpen escMarker input))
        (replaceAll escapedOpen escMarker input)).2 = [] := by
      intro he
      rw [missingVarsOf, he] at h
      simp at h
    simp only [substitute_env_vars]
    rw [if_neg hne]
    rfl
  · intro v hv
    obtain ⟨x, y, hxy⟩ := mem_joinCommaSp v _ hv
    have heq : missingErrMsg (missingVarsOf env envVars input)
        = (missingHeader ++ x) ++ (v ++ (y ++ missingFooter)) := by
      rw [missingErrMsg, hxy]
      simp [List.append_assoc]
    rw [heq]
    exact containsSub_append_left _ _ _ (containsSub_here _ _)

theorem substitute_strict_missing_aggregation_witness :
    (substitute_env_vars (fun _ => none)
        ['$', '\x7b', 'A', '\x7d', '$', '\x7b', 'B', '\x7d'] true []
      = Except.error (missingErrMsg (missingVarsOf (fun _ => none) []
          ['$', '\x7b', 'A', '\x7d', '$', '\x7b', 'B', '\x7d'])))
    ∧ containsSub ['A'] (missingErrMsg (missingVarsOf (fun _ => none) []
        ['$', '\x7b', 'A', '\x7d', '$', '\x7b', 'B', '\x7d'])) = true
    ∧ containsSub ['B'] (missingErrMsg (missingVarsOf (fun _ => none) []
        ['$', '\x7b', 'A', '\x7d', '$', '\x7b', 'B', '\x7d'])) = true := by
  have h := substitute_strict_missing_aggregation (fun _ => none) []
    ['$', '\x7b', 'A', '\x7d', '$', '\x7b', 'B', '\x7d'] (by decide)
  exact ⟨h.1, h.2 ['A'] (by decide), h.2 ['B'] (by decide)⟩

/-- Claim C7, counterexample: the input `$$\x7b` contains no substring
matching the placeholder grammar, yet `substitute_env_vars` rewrites it
to `$\x7b` (the escape-prefix masking and unmasking is applied to it),
so `substitute` is not the identity on all placeholder-free inputs. -/
theorem substitute_identity_counterexample :
    findPlaceholders ['$', '$', '\x7b'] = []
    ∧ substitute_env_vars (fun _ => none) ['$', '$', '\x7b'] true []
        = Except.ok ['$', '\x7b']
    ∧ (['$', '\x7b'] : List Char) ≠ ['$', '$', '\x7b'] :=
  ⟨rfl, rfl, by decide⟩

/-- Claim C7, amended: for every input string that contains no
placeholder, no occurrence of the escape prefix `$$\x7b`, and no
occurrence of the internal escape marker, `substitute_env_vars` returns
the input unchanged, for both strict values and every file-variable
mapping. -/
theorem substitute_identity_amended (env : EnvFn) (input : List Char)
    (strict : Bool) (envVars : List (List Char × List Char))
    (h1 : containsSub escapedOpen input = false)
    (h2 : findPlaceholders input = [])
    (h3 : containsSub escMarker input = false) :
    substitute_env_vars env input strict envVars = Except.ok input := by
  simp only [substitute_env_vars]
  rw [replaceAll_of_not_contains _ _ _ h1, h2]
  simp only [applySubsts]
  rw [replaceAll_of_not_contains _ _ _ h3]
  simp

theorem substitute_identity_amended_witness :
    substitute_env_vars (fun _ => none) "echo hi".toList false []
      = Except.ok ("echo hi".toList) :=
  substitute_identity_amended (fun _ => none) "echo hi".toList false []
    (by decide) (by decide) (by decide)

theorem isNameChar_ne_special (c : Char) (h : isNameChar c = true) :
    c ≠ '$' ∧ c ≠ '\x00' := by
  constructor <;> intro he <;> subst he <;> simp [isNameChar] at h

/-- Claim C8: an escaped placeholder `$$\x7bX\x7d` is never expanded
(whatever the environment, mapping and strict flag) and is restored to
the literal `$\x7bX\x7d` after all real substitutions complete. -/
theorem substitute_escape_literal (env : EnvFn) (strict : Bool)
    (envVars : List (List Char × List Char)) (X : List Char)
    (hX : ∀ c ∈ X, isNameChar c = true) :
    substitute_env_vars env
        ('$' :: '$' :: '\x7b' :: (X ++ ['\x7d'])) strict envVars
      = Except.ok ('$' :: '\x7b' :: (X ++ ['\x7d'])) := by
  have hdollar : '$' ∉ X ++ ['\x7d'] := by
    intro hm
    rcases List.mem_append.mp hm with hm1 | hm2
    · exact (isNameChar_ne_special '$' (hX '$' hm1)).1 rfl
    · simp at hm2
  have hnul : '\x00' ∉ X ++ ['\x7d'] := by
    intro hm
    rcases List.mem_append.mp hm with hm1 | hm2
    · exact (isNameChar_ne_special '\x00' (hX '\x00' hm1)).2 rfl
    · simp at hm2
  have hmask : replaceAll escapedOpen escMarker
      ('$' :: '$' :: '\x7b' :: (X ++ ['\x7d']))
        = escMarker ++ (X ++ ['\x7d']) := by
    rw [replaceAll_cons_pos escapedOpen escMarker '$'
      ('$' :: '\x7b' :: (X ++ ['\x7d']))
      (by simp [escapedOpen, List.isPrefixOf])]
    have hdrop : List.drop (escapedOpen.length - 1)
        ('$' :: '\x7b' :: (X ++ ['\x7d'])) = X ++ ['\x7d'] := by
      simp [escapedOpen]
    rw [hdrop, replaceAll_of_not_contains escapedOpen escMarker (X ++ ['\x7d'])
      (show containsSub escapedOpen (X ++ ['\x7d']) = false from
        containsSub_eq_false_of_not_mem '$' ['$', '\x7b'] _ hdollar)]
  have hfp : findPlaceholders (escMarker ++ (X ++ ['\x7d'])) = [] := by
    apply findPlaceholders_no_dollar
    intro hm
    rcases List.mem_append.mp hm with hm1 | hm2
    · simp [escMarker] at hm1
    · exact hdollar hm2
  have hrestore : replaceAll escMarker dollarOpen
      (escMarker ++ (X ++ ['\x7d']))
        = dollarOpen ++ (X ++ ['\x7d']) := by
    rw [show escMarker ++ (X ++ ['\x7d'])
        = '\x00' :: ('E' :: 'S' :: 'C' :: '\x00' :: (X ++ ['\x7d'])) from rfl]
    rw [replaceAll_cons_pos escMarker dollarOpen '\x00'
      ('E' :: 'S' :: 'C' :: '\x00' :: (X ++ ['\x7d']))
      (by simp [escMarker, List.isPrefixOf])]
    have hdrop : List.drop (escMarker.length - 1)
        ('E' :: 'S' :: 'C' :: '\x00' :: (X ++ ['\x7d'])) = X ++ ['\x7d'] := by
      simp [escMarker]
    rw [hdrop, replaceAll_of_not_contains escMarker dollarOpen (X ++ ['\x7d'])
      (show containsSub escMarker (X ++ ['\x7d']) = false from
        containsSub_eq_false_of_not_mem '\x00' ['E', 'S', 'C', '\x00'] _ hnul)]
  simp only [substitute_env_vars]
  rw [hmask, hfp]
  simp only [applySubsts]
  rw [hrestore]
  simp [dollarOpen]

theorem substitute_escape_literal_witness :
    substitute_env_vars (fun _ => none)
        ('$' :: '$' :: '\x7b' :: (['X'] ++ ['\x7d'])) true []
      = Except.ok ('$' :: '\x7b' :: (['X'] ++ ['\x7d'])) :=
  substitute_escape_literal (fun _ => none) true [] ['X'] (by decide)

/-- Claim C6, counterexample: with the base command `$\x7bA\x7d` (A
unresolvable, strict mode) and a wrapper template `w` lacking the
token, composition reports the command substitution failure, not the
wrapper configuration error — so composition does not fail before any
placeholder substitution is attempted. -/
theorem compose_wrapper_validation_counterexample :
    run_remote_command_compose (fun _ => none) [] true "/p".toList
        ['$', '\x7b', 'A', '\x7d'] Shell.bash (some ['w'])
      = Except.error (ComposeError.substCommand (missingErrMsg [['A']]))
    ∧ run_remote_command_compose (fun _ => none) [] true "/p".toList
        ['$', '\x7b', 'A', '\x7d'] Shell.bash (some ['w'])
      ≠ Except.error (ComposeError.wrapperMissingToken ['w']) := by
  refine ⟨rfl, fun h => ?_⟩
  rw [show run_remote_command_compose (fun _ => none) [] true "/p".toList
      ['$', '\x7b', 'A', '\x7d'] Shell.bash (some ['w'])
    = Except.error (ComposeError.substCommand (missingErrMsg [['A']]))
    from rfl] at h
  simp at h

/-- Claim C6, amended: when the base command's own substitution
succeeds, a configured wrapper template lacking the `\x7b\x7d` token
makes composition fail with the wrapper configuration error before the
wrapper template itself is substituted (no constraint on the wrapper's
substitution is needed for the failure). -/
theorem compose_wrapper_validation_amended (env : EnvFn)
    (envVars : List (List Char × List Char)) (strict : Bool)
    (remote_path command : List Char) (shell : Shell) (wt cmd : List Char)
    (hcmd : substitute_env_vars env command strict envVars = Except.ok cmd)
    (hwt : containsSub braceToken wt = false) :
    run_remote_command_compose env envVars strict remote_path command shell
        (some wt)
      = Except.error (ComposeError.wrapperMissingToken wt) := by
  simp [run_remote_command_compose, apply_wrapper, hcmd, hwt]

theorem compose_wrapper_validation_amended_witness :
    run_remote_command_compose (fun _ => none) [] true "/p".toList
        "echo".toList Shell.bash (some ['w'])
      = Except.error (ComposeError.wrapperMissingToken ['w']) :=
  compose_wrapper_validation_amended (fun _ => none) [] true "/p".toList
    "echo".toList Shell.bash ['w'] "echo".toList rfl rfl

/-- Claim C9: for the POSIX shell kind, remote path `/srv/app`, the
placeholder-free command `echo hi` and no wrapper, the composed command
handed to the transport client is exactly `cd "/srv/app" && echo hi`,
whatever the environment, file mapping and strict flag. -/
theorem compose_posix_end_to_end (env : EnvFn)
    (envVars : List (List Char × List Char)) (strict : Bool) :
    run_remote_command_compose env envVars strict "/srv/app".toList
        "echo hi".toList Shell.bash none
      = Except.ok ("cd \x22/srv/app\x22 && echo hi".toList) := rfl

theorem replaceAll_brace_skip (repl a rest : List Char)
    (ha : containsSub braceToken a = false) :
    replaceAll braceToken repl (a ++ '\x7b' :: rest)
      = a ++ replaceAll braceToken repl ('\x7b' :: rest) := by
  induction a with
  | nil => rfl
  | cons c a' ih =>
    have h2 : (braceToken.isPrefixOf (c :: a')
        || containsSub braceToken a') = false := ha
    rw [Bool.or_eq_false_iff] at h2
    have hcond : braceToken.isPrefixOf (c :: (a' ++ '\x7b' :: rest))
        = false := by
      cases a' with
      | nil => simp [braceToken, List.isPrefixOf]
      | cons d a'' =>
        have e1 : braceToken.isPrefixOf (c :: d :: (a'' ++ '\x7b' :: rest))
            = braceToken.isPrefixOf (c :: d :: a'') := by
          simp [braceToken, List.isPrefixOf]
        rw [List.cons_append] at *
        rw [e1]
        exact h2.1
    rw [List.cons_append, replaceAll_cons_neg _ _ _ _ hcond, ih h2.2,
      List.cons_append]

theorem replaceAll_brace_step (repl r : List Char) :
    replaceAll braceToken repl ('\x7b' :: '\x7d' :: r)
      = repl ++ replaceAll braceToken repl r := by
  rw [replaceAll_cons_pos braceToken repl '\x7b' ('\x7d' :: r)
    (by simp [braceToken, List.isPrefixOf])]
  simp [braceToken]

/-- Claim C10: a wrapper template containing the token `\x7b\x7d` more
than once passes validation, and after the wrapper's substitution every
token occurrence — not just the first — is replaced by the
already-substituted command. -/
theorem apply_wrapper_multiple_tokens (env : EnvFn)
    (envVars : List (List Char × List Char)) (strict : Bool)
    (cmd a b c a' b' c' : List Char)
    (hsub : substitute_env_vars env
        (a ++ (braceToken ++ (b ++ (braceToken ++ c)))) strict envVars
      = Except.ok (a' ++ (braceToken ++ (b' ++ (braceToken ++ c')))))
    (ha : containsSub braceToken a' = false)
    (hb : containsSub braceToken b' = false)
    (hc : containsSub braceToken c' = false) :
    apply_wrapper env envVars strict cmd
        (some (a ++ (braceToken ++ (b ++ (braceToken ++ c)))))
      = Except.ok (a' ++ (cmd ++ (b' ++ (cmd ++ c')))) := by
  have hval : containsSub braceToken
      (a ++ (braceToken ++ (b ++ (braceToken ++ c)))) = true :=
    containsSub_append_left _ _ _ (containsSub_here _ _)
  simp only [apply_wrapper, hval, hsub]
  show Except.ok (replaceAll braceToken cmd
      (a' ++ '\x7b' :: '\x7d' :: (b' ++ '\x7b' :: '\x7d' :: c')))
    = _
  rw [replaceAll_brace_skip cmd a' _ ha, replaceAll_brace_step,
    replaceAll_brace_skip cmd b' _ hb, replaceAll_brace_step,
    replaceAll_of_not_contains braceToken cmd c' hc]

theorem apply_wrapper_multiple_tokens_witness :
    apply_wrapper (fun _ => none) [] false "CMD".toList
        (some (['x'] ++ (braceToken ++ (['y'] ++ (braceToken ++ ['z'])))))
      = Except.ok (['x'] ++ ("CMD".toList ++ (['y'] ++ ("CMD".toList ++ ['z'])))) :=
  apply_wrapper_multiple_tokens (fun _ => none) [] false "CMD".toList
    ['x'] ['y'] ['z'] ['x'] ['y'] ['z'] rfl rfl rfl rfl

end Bridge
